import Mathlib

/-!
# Shut-the-box rules engine: a shallow embedding

This file embeds the core game logic of the shut-the-box repository
(`src/utils/combinations.ts`, `src/utils/gameLogic.ts`,
`src/store/gameStore.ts`) as executable Lean definitions, and proves the
specification's claims about them.

Modelling conventions:
* TypeScript `number[]` tile lists become `List Nat`; dice targets that may
  be zero or negative are `Int`.
* Player ids (strings generated by `createId`) become `Nat`; identity is the
  only property the logic uses.
* The zustand store state becomes the structure `GameState`; store actions
  become functions `GameState → GameState`.  Log entries (which carry wall
  clock timestamps) and pure UI fields (`settingsOpen`, `showHints`,
  `historyVisible`) are outside the model; the dice random draw is passed in
  explicitly as a function `Nat → Fin 6`.
-/

namespace ShutTheBox

/-- `OneDieRule` from `src/types.ts`: `'after789' | 'totalUnder6' | 'never'`. -/
inductive OneDieRule where
  | after789
  | totalUnder6
  | never
deriving DecidableEq, Repr

/-- `ScoringMode` from `src/types.ts`: `'lowest' | 'target' | 'instant'`. -/
inductive ScoringMode where
  | lowest
  | target
  | instant
deriving DecidableEq, Repr

/-- `GamePhase` from `src/types.ts`: `'setup' | 'inProgress' | 'finished'`. -/
inductive GamePhase where
  | setup
  | inProgress
  | finished
deriving DecidableEq, Repr

/-- `GameOptions` from `src/types.ts`.  (`theme` is UI-only and omitted.) -/
structure GameOptions where
  maxTile : Nat
  oneDieRule : OneDieRule
  scoring : ScoringMode
  targetScore : Nat
  instantWinOnShut : Bool
deriving DecidableEq, Repr

/-- `Player` from `src/types.ts`, with the string id modelled as a `Nat`. -/
structure Player where
  id : Nat
  name : String
  totalScore : Nat
  lastScore : Option Nat
  hintsEnabled : Bool
deriving DecidableEq, Repr

/-- `TurnHistoryEntry` from `src/types.ts`. -/
structure TurnHistoryEntry where
  dice : List Nat
  closedTiles : List Nat
deriving DecidableEq, Repr

/-- `TurnState` from `src/types.ts`. -/
structure TurnState where
  playerIndex : Nat
  dice : List Nat
  rolled : Bool
  selectableCombos : List (List Nat)
  selectedTiles : List Nat
  history : List TurnHistoryEntry
  canRollOneDie : Bool
  finished : Bool
deriving DecidableEq, Repr

/-- The store state of `src/store/gameStore.ts` (claim-relevant fields;
`unfinishedCounts : Record<string, number>` is an association list on ids). -/
structure GameState where
  phase : GamePhase
  options : GameOptions
  tilesOpen : List Nat
  players : List Player
  round : Nat
  turn : Option TurnState
  winnerIds : List Nat
  previousWinnerIds : List Nat
  bestMove : Option (List Nat)
  unfinishedCounts : List (Nat × Nat)
  pendingTurn : Option TurnState
  pendingTiles : Option (List Nat)
  waitingForNext : Bool
deriving DecidableEq, Repr

/-- `createInitialTiles` from `src/utils/gameLogic.ts`: the tiles `1..maxTile`. -/
def createInitialTiles (maxTile : Nat) : List Nat :=
  (List.range maxTile).map (· + 1)

/-- `sumTiles` from `src/utils/gameLogic.ts`. -/
def sumTiles (tiles : List Nat) : Nat :=
  tiles.foldl (· + ·) 0

/-- `canUseOneDie` from `src/utils/gameLogic.ts`. -/
def canUseOneDie (openTiles : List Nat) (options : GameOptions) : Bool :=
  if options.oneDieRule = .never then
    false
  else
    let maxTile := options.maxTile
    let highTiles := [maxTile - 2, maxTile - 1, maxTile]
    if options.oneDieRule = .after789 then
      highTiles.all (fun tile => !(openTiles.contains tile))
    else if options.oneDieRule = .totalUnder6 then
      sumTiles openTiles < 6
    else
      false

/-- The `backtrack` closure of `generateTileCombos` in
`src/utils/combinations.ts`, written as a recursion on the suffix of the
sorted tile list still to explore.  The source's index loop over
`sorted[start..]` with `continue` on overshoot, push/recurse/pop, is exactly:
take the head into the path (when it does not overshoot) and recurse, then
continue the loop over the tail with the same path. -/
def generateAux (target : Int) : List Nat → Int → List Nat → List (List Nat)
  | tiles, sum, path =>
    if sum = target then
      [path]
    else
      match tiles with
      | [] => []
      | tile :: rest =>
        (if sum + tile > target then [] else generateAux target rest (sum + tile) (path ++ [tile]))
          ++ generateAux target rest sum path

/-- Ascending numeric sort, `[...xs].sort((a, b) => a - b)` in the source. -/
def sortTiles (tiles : List Nat) : List Nat :=
  tiles.insertionSort (· ≤ ·)

/-- `generateTileCombos` from `src/utils/combinations.ts`. -/
def generateTileCombos (tiles : List Nat) (target : Int) : List (List Nat) :=
  let sorted := sortTiles tiles
  generateAux target sorted 0 []

/-- `isSameCombo` from `src/utils/combinations.ts`: equal lengths and equal
sorted contents (the source compares the two sorted arrays index by index,
which for equal lengths is list equality of the sorted lists). -/
def isSameCombo (a b : List Nat) : Bool :=
  a.length == b.length && sortTiles a == sortTiles b

/-- `shouldInstantWin` is imported by `src/store/gameStore.ts` from
`src/utils/gameLogic.ts` but its definition is absent from the sources.
Modelled from the spec: the `instantWinOnShut` flag (§3, implied true when
mode = InstantWinOnShut) makes the round end the moment a turn ends with
remainder zero (§4.5), i.e. instant win iff the board is empty and the flag
is set. -/
def shouldInstantWin (remainingTiles : List Nat) (options : GameOptions) : Bool :=
  remainingTiles.isEmpty && options.instantWinOnShut

/-! ## Store actions (`src/store/gameStore.ts`) -/

/-- The player update both `confirmMove` and `endTurn` perform:
`players.map((player, index) => index === idx ? {...player, lastScore: remainder,
totalScore: scoring === 'target' ? player.totalScore + remainder : remainder} : player)`,
written as a structural recursion on the list with the index counting down. -/
def updatePlayersScore (scoring : ScoringMode) (remainder : Nat) :
    List Player → Nat → List Player
  | [], _ => []
  | p :: ps, 0 =>
    { p with
      lastScore := some remainder,
      totalScore := if scoring = .target then p.totalScore + remainder else remainder } :: ps
  | p :: ps, idx + 1 => p :: updatePlayersScore scoring remainder ps idx

/-- `updatedCounts[playerId] = (updatedCounts[playerId] ?? 0) + 1` on the
`Record<string, number>` of unfinished-turn counters. -/
def bumpCount (counts : List (Nat × Nat)) (pid : Nat) : List (Nat × Nat) :=
  if counts.any (fun kv => kv.1 = pid) then
    counts.map (fun kv => if kv.1 = pid then (kv.1, kv.2 + 1) else kv)
  else
    counts ++ [(pid, 1)]

/-- The winner computation of `endTurn` under `'lowest'` scoring:
`minScore = Math.min(...scored lastScores)` and winners are the scored
players whose `lastScore` equals it; `Math.min()` of nothing is `Infinity`,
failing the `Number.isFinite` guard, so an empty scored list gives no
winners. -/
def lowestWinners (scoredPlayers : List Player) : List Nat :=
  match (scoredPlayers.filterMap (fun p => p.lastScore)).min? with
  | some m => (scoredPlayers.filter (fun p => p.lastScore = some m)).map (fun p => p.id)
  | none => []

/-- `scoredPlayers.length === 1 && (scoredPlayers[0].lastScore ?? 0) > 0`. -/
def singlePlayerNoShut (scoredPlayers : List Player) : Bool :=
  match scoredPlayers with
  | [p] => 0 < p.lastScore.getD 0
  | _ => false

/-- `buildPendingTurn` inside `endTurn`: a fresh turn for `playerIndex` over
the reset tile board. -/
def freshTurn (playerIndex : Nat) (resetTiles : List Nat) (options : GameOptions) : TurnState :=
  { playerIndex := playerIndex
    dice := []
    rolled := false
    selectableCombos := []
    selectedTiles := []
    history := []
    canRollOneDie := canUseOneDie resetTiles options
    finished := false }

/-- `endTurn` from `src/store/gameStore.ts` (log entries are outside the
model).  The three exit shapes of the source — finish the round, or keep the
round going with a pending hand-off — are the two local builders below. -/
def endTurn (s : GameState) : GameState :=
  match s.turn with
  | none => s
  | some turn =>
    let remainder := sumTiles s.tilesOpen
    let playerId? := (s.players.get? turn.playerIndex).map (fun p => p.id)
    let updatedPlayers := updatePlayersScore s.options.scoring remainder s.players turn.playerIndex
    let playerClosedRound := remainder = 0
    let resetTiles := createInitialTiles s.options.maxTile
    let updatedCounts :=
      match playerId? with
      | some pid => if playerClosedRound then s.unfinishedCounts else bumpCount s.unfinishedCounts pid
      | none => s.unfinishedCounts
    let nextPlayerIndex := turn.playerIndex + 1
    let isLastPlayer := updatedPlayers.length ≤ nextPlayerIndex
    let finishedTurn := { turn with rolled := false, finished := true }
    let finishRound := fun (winners prevWinners : List Nat) =>
      { s with
        players := updatedPlayers
        bestMove := none
        unfinishedCounts := updatedCounts
        phase := .finished
        winnerIds := winners
        previousWinnerIds := prevWinners
        turn := some finishedTurn
        pendingTurn := none
        pendingTiles := none
        waitingForNext := false }
    let continueRound := fun (idx round : Nat) =>
      { s with
        players := updatedPlayers
        bestMove := none
        unfinishedCounts := updatedCounts
        round := round
        turn := some finishedTurn
        pendingTurn := some (freshTurn idx resetTiles s.options)
        pendingTiles := some resetTiles
        waitingForNext := true }
    if s.options.scoring = .lowest then
      if isLastPlayer then
        let scoredPlayers := updatedPlayers.filter (fun p => p.lastScore.isSome)
        let winnerIds := lowestWinners scoredPlayers
        let noShut := singlePlayerNoShut scoredPlayers
        if winnerIds ≠ [] ∧ noShut = false then
          finishRound winnerIds winnerIds
        else if noShut = true then
          finishRound [] []
        else
          continueRound 0 (s.round + 1)
      else
        continueRound nextPlayerIndex s.round
    else
      let shutIds := (updatedPlayers.filter (fun p => p.lastScore = some 0)).map (fun p => p.id)
      if shutIds ≠ [] ∧ s.options.scoring = .instant then
        finishRound shutIds shutIds
      else
        continueRound (if isLastPlayer then 0 else nextPlayerIndex)
          (if isLastPlayer then s.round + 1 else s.round)

/-- `acknowledgeNextTurn` from `src/store/gameStore.ts`. -/
def acknowledgeNextTurn (s : GameState) : GameState :=
  match s.pendingTurn with
  | none =>
    { s with waitingForNext := false, pendingTiles := none, pendingTurn := none }
  | some pendingTurn =>
    let nextTiles := s.pendingTiles.getD (createInitialTiles s.options.maxTile)
    { s with
      tilesOpen := nextTiles
      turn := some pendingTurn
      pendingTurn := none
      pendingTiles := none
      waitingForNext := false
      bestMove := none }

/-- `confirmMove` from `src/store/gameStore.ts`.  (When the instant-win
branch reads `players[playerIndex].id` the index is always in range; an
out-of-range read is modelled as producing no winner.) -/
def confirmMove (s : GameState) : GameState :=
  match s.turn with
  | none => s
  | some turn =>
    if turn.rolled = false ∨ turn.finished = true then s
    else
      let sortedSelection := sortTiles turn.selectedTiles
      let isValid := turn.selectableCombos.any (fun combo => isSameCombo combo sortedSelection)
      if isValid = false then s
      else
        let remainingTiles := s.tilesOpen.filter (fun tile => !(sortedSelection.contains tile))
        let historyEntry : TurnHistoryEntry := { dice := turn.dice, closedTiles := sortedSelection }
        let nextCanRollOneDie := canUseOneDie remainingTiles s.options
        let playerIndex := turn.playerIndex
        let turnFinished := remainingTiles.length = 0
        let instantWin := shouldInstantWin remainingTiles s.options
        let s1 := { s with
          tilesOpen := remainingTiles
          turn := some { turn with
            dice := []
            rolled := false
            selectableCombos := []
            selectedTiles := []
            canRollOneDie := nextCanRollOneDie
            finished := turnFinished
            history := turn.history ++ [historyEntry] }
          bestMove := none }
        if turnFinished then
          let remainder := sumTiles remainingTiles
          let s2 := { s1 with
            players := updatePlayersScore s1.options.scoring remainder s1.players playerIndex }
          if instantWin then
            { s2 with
              phase := .finished
              winnerIds :=
                match s2.players.get? playerIndex with
                | some p => [p.id]
                | none => []
              turn := s2.turn.map (fun t => { t with finished := true }) }
          else
            endTurn s2
        else
          s1

/-- The best-move pick of `rollDice`: combos paired with the remainder they
would leave, stably sorted by remainder, first taken.  A stable sort's first
element is the earliest entry with minimal key, which this fold computes. -/
def pickBestMove (tilesOpen : List Nat) (combos : List (List Nat)) : Option (List Nat) :=
  let entries := combos.map (fun combo =>
    (combo, sumTiles (tilesOpen.filter (fun tile => !(combo.contains tile)))))
  (entries.foldl (fun best e =>
    match best with
    | none => some e
    | some b => if e.2 < b.2 then some e else some b) none).map (fun e => e.1)

/-- `rollDice` from `src/store/gameStore.ts`.  The random draw
`Math.floor(Math.random() * 6) + 1` for die `i` is modelled as
`(rng i).val + 1` for an arbitrary `rng : Nat → Fin 6`. -/
def rollDice (rng : Nat → Fin 6) (diceCount : Option Nat) (s : GameState) : GameState :=
  match s.turn with
  | none => s
  | some turn =>
    if turn.finished = true then s
    else
      let canRollOneDie := canUseOneDie s.tilesOpen s.options
      if diceCount = some 1 ∧ canRollOneDie = false then s
      else
        let diceToRoll := diceCount.getD (if canRollOneDie then 1 else 2)
        let dice := (List.range diceToRoll).map (fun i => (rng i).val + 1)
        let total := sumTiles dice
        let combos := generateTileCombos s.tilesOpen (total : Int)
        let bestMove := pickBestMove s.tilesOpen combos
        let s1 := { s with
          turn := some { turn with
            dice := dice
            rolled := true
            selectableCombos := combos
            selectedTiles := []
            canRollOneDie := canRollOneDie
            finished := combos.length = 0 }
          bestMove := bestMove }
        if combos.length = 0 then endTurn s1 else s1

/-- `setOption` from `src/store/gameStore.ts`, specialised to
`key = 'maxTile'` (the only key the claims concern): the options record is
always updated, and when the phase is not `inProgress` the open tiles are
reset to the fresh `1..value` board as well. -/
def setOptionMaxTile (value : Nat) (s : GameState) : GameState :=
  let nextOptions := { s.options with maxTile := value }
  if s.phase ≠ .inProgress then
    { s with options := nextOptions, tilesOpen := createInitialTiles value }
  else
    { s with options := nextOptions }

/-! ## Helper lemmas -/

theorem sortTiles_perm (tiles : List Nat) : (sortTiles tiles).Perm tiles :=
  List.perm_insertionSort _ tiles

theorem sortTiles_sorted (tiles : List Nat) : (sortTiles tiles).Sorted (· ≤ ·) :=
  List.sorted_insertionSort _ tiles

theorem sortTiles_sorted_lt {tiles : List Nat} (hnd : tiles.Nodup) :
    (sortTiles tiles).Sorted (· < ·) := by
  have hnd' : (sortTiles tiles).Nodup := ((sortTiles_perm tiles).nodup_iff).mpr hnd
  exact (sortTiles_sorted tiles).lt_of_le hnd'

theorem sortTiles_eq_of_perm {a b : List Nat} (h : a.Perm b) : sortTiles a = sortTiles b :=
  List.eq_of_perm_of_sorted ((sortTiles_perm a).trans (h.trans (sortTiles_perm b).symm))
    (sortTiles_sorted a) (sortTiles_sorted b)

/-- The source's combo comparison succeeds exactly on permutations. -/
theorem isSameCombo_iff_perm (a b : List Nat) : isSameCombo a b = true ↔ a.Perm b := by
  constructor
  · intro h
    simp only [isSameCombo, Bool.and_eq_true, beq_iff_eq] at h
    exact (sortTiles_perm a).symm.trans (h.2 ▸ sortTiles_perm b)
  · intro h
    simp [isSameCombo, h.length_eq, sortTiles_eq_of_perm h]

/-- For duplicate-free lists, permutation is set equality. -/
theorem perm_iff_toFinset_eq {a b : List Nat} (ha : a.Nodup) (hb : b.Nodup) :
    a.Perm b ↔ a.toFinset = b.toFinset := by
  rw [List.perm_ext_iff_of_nodup ha hb, Finset.ext_iff]
  simp

theorem foldl_add_eq (l : List Nat) (n : Nat) : l.foldl (· + ·) n = n + l.sum := by
  induction l generalizing n with
  | nil => simp
  | cons a l ih => simp [List.foldl_cons, ih]; omega

/-- The source's `reduce`-based sum is the mathematical sum. -/
theorem sumTiles_eq_sum (tiles : List Nat) : sumTiles tiles = tiles.sum := by
  simp [sumTiles, foldl_add_eq]

/-- Every element of `generateAux target tiles sum path` is `path` extended by
a sublist of `tiles` whose sum closes the gap from `sum` to `target`. -/
theorem mem_generateAux {target : Int} {tiles : List Nat} {sum : Int} {path c : List Nat}
    (hc : c ∈ generateAux target tiles sum path) :
    ∃ ext : List Nat, c = path ++ ext ∧ ext.Sublist tiles ∧ sum + (ext.sum : Int) = target := by
  induction tiles generalizing sum path with
  | nil =>
    rw [generateAux] at hc
    split at hc
    · next heq =>
      simp only [List.mem_singleton] at hc
      exact ⟨[], by simp [hc, heq.symm]⟩
    · simp at hc
  | cons tile rest ih =>
    rw [generateAux] at hc
    split at hc
    · next heq =>
      simp only [List.mem_singleton] at hc
      exact ⟨[], by simp [hc, heq.symm]⟩
    · next hne =>
      simp only [List.mem_append] at hc
      rcases hc with hc | hc
      · split at hc
        · simp at hc
        · obtain ⟨ext, hce, hsub, hsum⟩ := ih hc
          refine ⟨tile :: ext, ?_, ?_, ?_⟩
          · simp [hce]
          · exact List.Sublist.cons₂ tile hsub
          · have hcast : ((tile :: ext).sum : Int) = (tile : Int) + (ext.sum : Int) := by
              simp
            omega
      · obtain ⟨ext, hce, hsub, hsum⟩ := ih hc
        exact ⟨ext, hce, hsub.cons tile, hsum⟩

/-- `generateAux` never emits the same list twice when the tiles are distinct. -/
theorem nodup_generateAux {target : Int} {tiles : List Nat} {sum : Int} {path : List Nat}
    (hnd : tiles.Nodup) : (generateAux target tiles sum path).Nodup := by
  induction tiles generalizing sum path with
  | nil =>
    rw [generateAux]
    split <;> simp
  | cons tile rest ih =>
    rw [generateAux]
    split
    · simp
    · obtain ⟨hnotin, hndrest⟩ := List.nodup_cons.mp hnd
      refine List.Nodup.append ?_ (ih hndrest) ?_
      · split
        · simp
        · exact ih hndrest
      · intro c hc1 hc2
        obtain ⟨ext2, hce2, hsub2, -⟩ := mem_generateAux hc2
        split at hc1
        · simp at hc1
        · obtain ⟨ext1, hce1, -, -⟩ := mem_generateAux hc1
          rw [hce1] at hce2
          have heq : tile :: ext1 = ext2 := by
            simpa using hce2
          have htile : tile ∈ ext2 := by
            rw [← heq]; simp
          exact hnotin (hsub2.subset htile)

/-- A branch whose running sum already exceeds the target emits nothing. -/
theorem generateAux_eq_nil_of_lt {target : Int} {tiles : List Nat} {sum : Int}
    {path : List Nat} (h : target < sum) : generateAux target tiles sum path = [] := by
  induction tiles generalizing sum path with
  | nil =>
    rw [generateAux]
    split
    · omega
    · rfl
  | cons tile rest ih =>
    rw [generateAux]
    split
    · omega
    · rw [if_pos (by omega), ih h, List.nil_append]

theorem updatePlayersScore_length (scoring : ScoringMode) (rem : Nat) :
    ∀ (ps : List Player) (idx : Nat),
      (updatePlayersScore scoring rem ps idx).length = ps.length := by
  intro ps
  induction ps with
  | nil => intro idx; rfl
  | cons p ps ih =>
    intro idx
    cases idx with
    | zero => simp [updatePlayersScore]
    | succ n => simp [updatePlayersScore, ih n]

theorem updatePlayersScore_get?_self {scoring : ScoringMode} {rem : Nat} :
    ∀ {ps : List Player} {idx : Nat} {p : Player}, ps.get? idx = some p →
      (updatePlayersScore scoring rem ps idx).get? idx =
        some { p with
          lastScore := some rem,
          totalScore := if scoring = .target then p.totalScore + rem else rem } := by
  intro ps
  induction ps with
  | nil => intro idx p h; simp at h
  | cons q ps ih =>
    intro idx p h
    cases idx with
    | zero => simp_all [updatePlayersScore]
    | succ n =>
      simp only [List.get?_cons_succ] at h
      simpa [updatePlayersScore] using ih h

theorem updatePlayersScore_get?_ne {scoring : ScoringMode} {rem : Nat} :
    ∀ {ps : List Player} {idx j : Nat}, j ≠ idx →
      (updatePlayersScore scoring rem ps idx).get? j = ps.get? j := by
  intro ps
  induction ps with
  | nil => intro idx j _; cases idx <;> rfl
  | cons q ps ih =>
    intro idx j hne
    cases idx with
    | zero =>
      cases j with
      | zero => exact absurd rfl hne
      | succ m => simp [updatePlayersScore]
    | succ n =>
      cases j with
      | zero => simp [updatePlayersScore]
      | succ m =>
        simp only [updatePlayersScore, List.get?_cons_succ]
        exact ih (fun h => hne (by rw [h]))

/-- When only the updated player can carry a zero `lastScore`, the shut-player
filter of `endTurn` singles that player out. -/
theorem filter_updatePlayersScore_zero (scoring : ScoringMode) :
    ∀ (ps : List Player) (idx : Nat) (cp : Player), ps.get? idx = some cp →
      (∀ j p, j ≠ idx → ps.get? j = some p → p.lastScore ≠ some 0) →
      (updatePlayersScore scoring 0 ps idx).filter (fun p => p.lastScore = some 0) =
        [{ cp with
            lastScore := some 0,
            totalScore := if scoring = .target then cp.totalScore + 0 else 0 }] := by
  intro ps
  induction ps with
  | nil => intro idx cp h _; simp at h
  | cons q ps ih =>
    intro idx cp h hothers
    cases idx with
    | zero =>
      simp only [List.get?_cons_zero, Option.some_inj] at h
      subst h
      have hrest : ps.filter (fun p => p.lastScore = some 0) = [] := by
        rw [List.filter_eq_nil_iff]
        intro p hp
        obtain ⟨j, hj⟩ := List.get?_of_mem hp
        simpa using hothers (j + 1) p (by omega) (by simpa using hj)
      simp [updatePlayersScore, List.filter_cons, hrest]
    | succ n =>
      simp only [List.get?_cons_succ] at h
      have hq : q.lastScore ≠ some 0 := hothers 0 q (by omega) rfl
      have hrec := ih n cp h (fun j p hj hp => hothers (j + 1) p (by omega) (by simpa using hp))
      simp [updatePlayersScore, List.filter_cons, hq, hrec]

theorem singlePlayerNoShut_iff (scored : List Player) :
    singlePlayerNoShut scored = true ↔ ∃ p, scored = [p] ∧ 0 < p.lastScore.getD 0 := by
  match scored with
  | [] => simp [singlePlayerNoShut]
  | [p] => simp [singlePlayerNoShut]
  | p :: q :: r => simp [singlePlayerNoShut]

/-- `lowestWinners` (the `Math.min`-fold of the source) returns exactly the
scored players of minimal `lastScore`, and is nonempty whenever some player
scored. -/
theorem lowestWinners_spec (scored : List Player)
    (hs : ∀ p ∈ scored, p.lastScore.isSome) :
    (∀ pid, pid ∈ lowestWinners scored ↔
      ∃ p, p ∈ scored ∧ p.id = pid ∧
        ∀ q ∈ scored, p.lastScore.getD 0 ≤ q.lastScore.getD 0) ∧
    (scored ≠ [] → lowestWinners scored ≠ []) := by
  rcases hmin : (scored.filterMap (fun p => p.lastScore)).min? with - | m
  · have hempty : scored = [] := by
      rw [List.min?_eq_none_iff] at hmin
      cases hscored : scored with
      | nil => rfl
      | cons p rest =>
        exfalso
        have hp := hs p (by rw [hscored]; simp)
        obtain ⟨v, hv⟩ := Option.isSome_iff_exists.mp hp
        have : v ∈ scored.filterMap (fun p => p.lastScore) :=
          List.mem_filterMap.mpr ⟨p, by rw [hscored]; simp, hv⟩
        rw [hmin] at this
        simp at this
    subst hempty
    constructor
    · intro pid
      simp [lowestWinners, hmin]
    · intro h; exact absurd rfl h
  · have hm := List.min?_eq_some_iff'.mp hmin
    obtain ⟨hmem, hleast⟩ := hm
    obtain ⟨p0, hp0, hp0s⟩ := List.mem_filterMap.mp hmem
    have hwin : lowestWinners scored =
        (scored.filter (fun p => p.lastScore = some m)).map (fun p => p.id) := by
      rw [lowestWinners, hmin]
    constructor
    · intro pid
      rw [hwin]
      simp only [List.mem_map, List.mem_filter, decide_eq_true_eq]
      constructor
      · rintro ⟨p, ⟨hpmem, hpm⟩, hpid⟩
        refine ⟨p, hpmem, hpid, ?_⟩
        intro q hq
        obtain ⟨vq, hvq⟩ := Option.isSome_iff_exists.mp (hs q hq)
        have hvq' : vq ∈ scored.filterMap (fun p => p.lastScore) :=
          List.mem_filterMap.mpr ⟨q, hq, hvq⟩
        rw [hpm, hvq]
        simpa using hleast vq hvq'
      · rintro ⟨p, hpmem, hpid, hminp⟩
        refine ⟨p, ⟨hpmem, ?_⟩, hpid⟩
        obtain ⟨vp, hvp⟩ := Option.isSome_iff_exists.mp (hs p hpmem)
        have hvp' : vp ∈ scored.filterMap (fun p => p.lastScore) :=
          List.mem_filterMap.mpr ⟨p, hpmem, hvp⟩
        have h1 : m ≤ vp := hleast vp hvp'
        have h2 : vp ≤ m := by
          have := hminp p0 hp0
          rw [hvp, hp0s] at this
          simpa using this
        rw [hvp, Option.some_inj]
        omega
    · intro _
      rw [hwin]
      intro hnil
      have : p0 ∈ scored.filter (fun p => p.lastScore = some m) :=
        List.mem_filter.mpr ⟨hp0, by simp [hp0s]⟩
      rw [List.map_eq_nil_iff] at hnil
      rw [hnil] at this
      simp at this

/-- `endTurn` never changes the open tiles. -/
theorem endTurn_tilesOpen (s : GameState) : (endTurn s).tilesOpen = s.tilesOpen := by
  rw [endTurn.eq_def]
  rcases htt : s.turn with - | t
  · rfl
  · simp only []
    split
    · split
      · split
        · rfl
        · split
          · rfl
          · rfl
      · rfl
    · split
      · rfl
      · rfl

/-- `endTurn` keeps the current turn in place, marking it unrolled and
finished, in every branch. -/
theorem endTurn_turn {s : GameState} {t : TurnState} (h : s.turn = some t) :
    (endTurn s).turn = some { t with rolled := false, finished := true } := by
  rw [endTurn.eq_def, h]
  simp only []
  split
  · split
    · split
      · rfl
      · split
        · rfl
        · rfl
    · rfl
  · split
    · rfl
    · rfl

/-- With nothing pending (and the flag and tile stash already clear, as every
producer of a cleared hand-off leaves them), `acknowledgeNextTurn` is the
identity. -/
theorem acknowledgeNextTurn_noop {s : GameState} (h1 : s.pendingTurn = none)
    (h2 : s.pendingTiles = none) (h3 : s.waitingForNext = false) :
    acknowledgeNextTurn s = s := by
  cases s
  simp_all [acknowledgeNextTurn]

/-- `acknowledgeNextTurn` always leaves the hand-off slots cleared. -/
theorem acknowledgeNextTurn_clears (s : GameState) :
    (acknowledgeNextTurn s).pendingTurn = none ∧
    (acknowledgeNextTurn s).pendingTiles = none ∧
    (acknowledgeNextTurn s).waitingForNext = false := by
  rw [acknowledgeNextTurn.eq_def]
  rcases s.pendingTurn with - | pt <;> simp

/-- A pending hand-off is applied: the pending turn becomes the active turn
over the stashed tiles, and the hand-off slots are cleared. -/
theorem acknowledgeNextTurn_applies {s : GameState} {pt : TurnState}
    (h : s.pendingTurn = some pt) :
    (acknowledgeNextTurn s).turn = some pt ∧
    (acknowledgeNextTurn s).tilesOpen =
      s.pendingTiles.getD (createInitialTiles s.options.maxTile) ∧
    (acknowledgeNextTurn s).pendingTurn = none ∧
    (acknowledgeNextTurn s).waitingForNext = false := by
  rw [acknowledgeNextTurn.eq_def, h]
  simp

/-! ## Example states used by the witnesses -/

def exampleOptions : GameOptions :=
  { maxTile := 9, oneDieRule := .after789, scoring := .lowest,
    targetScore := 100, instantWinOnShut := true }

def examplePlayer : Player :=
  { id := 1, name := "Player 1", totalScore := 0, lastScore := none,
    hintsEnabled := false }

def exampleTurn : TurnState :=
  { playerIndex := 0, dice := [], rolled := false, selectableCombos := [],
    selectedTiles := [], history := [], canRollOneDie := false,
    finished := false }

def exampleState : GameState :=
  { phase := .inProgress, options := exampleOptions,
    tilesOpen := createInitialTiles 9, players := [examplePlayer], round := 1,
    turn := some exampleTurn, winnerIds := [], previousWinnerIds := [],
    bestMove := none, unfinishedCounts := [(1, 0)], pendingTurn := none,
    pendingTiles := none, waitingForNext := false }

/-! ## Claims -/

/-- C7.  `acknowledgeNextTurn` is a no-op when no hand-off is pending (with
the hand-off slots clear, as every cleared state produced by the store has
them), and applying it twice in a row always equals applying it once. -/
theorem c7_acknowledgeNextTurn (s : GameState) :
    (s.pendingTurn = none → s.pendingTiles = none → s.waitingForNext = false →
      acknowledgeNextTurn s = s) ∧
    acknowledgeNextTurn (acknowledgeNextTurn s) = acknowledgeNextTurn s := by
  refine ⟨fun h1 h2 h3 => acknowledgeNextTurn_noop h1 h2 h3, ?_⟩
  obtain ⟨h1, h2, h3⟩ := acknowledgeNextTurn_clears s
  exact acknowledgeNextTurn_noop h1 h2 h3

/-- Witness for C7 on a concrete state with no pending hand-off. -/
theorem c7_acknowledgeNextTurn_witness :
    acknowledgeNextTurn exampleState = exampleState ∧
    acknowledgeNextTurn (acknowledgeNextTurn exampleState) =
      acknowledgeNextTurn exampleState :=
  ⟨(c7_acknowledgeNextTurn exampleState).1 rfl rfl rfl,
    (c7_acknowledgeNextTurn exampleState).2⟩

/-- C8 counterexample: with the phase `inProgress` (not Setup), setting
`maxTile` is *not* rejected — the options record changes. -/
theorem c8_setOptionMaxTile_cx :
    exampleState.phase = .inProgress ∧
    exampleState.options.maxTile = 9 ∧
    (setOptionMaxTile 12 exampleState).options.maxTile = 12 ∧
    (setOptionMaxTile 12 exampleState).options ≠ exampleState.options := by
  refine ⟨rfl, rfl, rfl, by decide⟩

/-- C8 as amended: `setOption('maxTile', v)` always updates the options, in
every phase; only the accompanying tile reset is phase-gated — the open
tiles are reset to the fresh `1..v` board when the phase is not `inProgress`
and left unchanged mid-round. -/
theorem c8_setOptionMaxTile (value : Nat) (s : GameState) :
    (setOptionMaxTile value s).options = { s.options with maxTile := value } ∧
    (s.phase ≠ .inProgress →
      (setOptionMaxTile value s).tilesOpen = createInitialTiles value) ∧
    (s.phase = .inProgress →
      (setOptionMaxTile value s).tilesOpen = s.tilesOpen) ∧
    (setOptionMaxTile value s).phase = s.phase ∧
    (setOptionMaxTile value s).players = s.players ∧
    (setOptionMaxTile value s).turn = s.turn := by
  unfold setOptionMaxTile
  split
  · next h =>
    exact ⟨rfl, fun _ => rfl, fun hp => absurd hp h, rfl, rfl, rfl⟩
  · next h =>
    exact ⟨rfl, fun hne => absurd (not_not.mp h) hne, fun _ => rfl, rfl, rfl, rfl⟩

/-- Witness for C8 (amended) at a mid-round state and a setup state. -/
theorem c8_setOptionMaxTile_witness :
    (setOptionMaxTile 12 exampleState).options =
      { exampleState.options with maxTile := 12 } ∧
    (setOptionMaxTile 12 exampleState).tilesOpen = exampleState.tilesOpen :=
  ⟨(c8_setOptionMaxTile 12 exampleState).1,
    (c8_setOptionMaxTile 12 exampleState).2.2.1 rfl⟩

/-- After an optional `endTurn`, the active turn still carries the same
dice. -/
theorem turn_dice_after_maybe_endTurn {C : Prop} [Decidable C] {s1 : GameState}
    {t1 : TurnState} (h : s1.turn = some t1) :
    ∃ t', (if C then endTurn s1 else s1).turn = some t' ∧ t'.dice = t1.dice := by
  by_cases hC : C
  · rw [if_pos hC]
    exact ⟨_, endTurn_turn h, rfl⟩
  · rw [if_neg hC]
    exact ⟨t1, h, rfl⟩

/-- C10.  With an active, unfinished turn, `rollDice` without a dice-count
argument rolls one die exactly when the one-die rule currently allows it and
two dice otherwise, each die in `1..6`. -/
theorem c10_rollDice_default (rng : Nat → Fin 6) (s : GameState) (t : TurnState)
    (hturn : s.turn = some t) (hfin : t.finished = false) :
    ∃ t', (rollDice rng none s).turn = some t' ∧
      t'.dice.length =
        (if canUseOneDie s.tilesOpen s.options = true then 1 else 2) ∧
      ∀ d ∈ t'.dice, 1 ≤ d ∧ d ≤ 6 := by
  rw [rollDice.eq_def, hturn]
  simp only [hfin]
  rw [if_neg (by simp)]
  rw [if_neg (by simp)]
  have hdice : ∀ n, ∀ d ∈ (List.range n).map (fun i => (rng i).val + 1),
      1 ≤ d ∧ d ≤ 6 := by
    intro n d hd
    obtain ⟨i, -, hi⟩ := List.mem_map.mp hd
    have := (rng i).isLt
    omega
  set k := (if canUseOneDie s.tilesOpen s.options = true then 1 else 2) with hk
  split
  · refine ⟨_, endTurn_turn rfl, by simp, hdice _⟩
  · refine ⟨_, rfl, by simp, hdice _⟩

/-- C2.  Every combo returned by `generateTileCombos` over distinct tiles sums
exactly to the target, draws only from the open tiles, is strictly ascending,
and no two returned combos are set-equal; for open tiles `{1..9}` and target 9
the generator returns exactly the eight combos `{9}`, `{1,8}`, `{2,7}`,
`{3,6}`, `{4,5}`, `{1,2,6}`, `{1,3,5}`, `{2,3,4}`. -/
theorem c2_generateTileCombos :
    (∀ (tiles : List Nat) (target : Int), tiles.Nodup →
      (∀ c ∈ generateTileCombos tiles target,
        (c.sum : Int) = target ∧ (∀ x ∈ c, x ∈ tiles) ∧ c.Sorted (· < ·)) ∧
      (generateTileCombos tiles target).Pairwise (fun a b => a.toFinset ≠ b.toFinset)) ∧
    generateTileCombos [1, 2, 3, 4, 5, 6, 7, 8, 9] 9 =
      [[1, 2, 6], [1, 3, 5], [1, 8], [2, 3, 4], [2, 7], [3, 6], [4, 5], [9]] := by
  constructor
  · intro tiles target hnd
    have hperm := sortTiles_perm tiles
    have hslt := sortTiles_sorted_lt hnd
    have hmem : ∀ c ∈ generateTileCombos tiles target,
        (c.sum : Int) = target ∧ (∀ x ∈ c, x ∈ tiles) ∧ c.Sorted (· < ·) := by
      intro c hc
      obtain ⟨ext, hce, hsub, hsum⟩ := mem_generateAux hc
      simp only [List.nil_append] at hce
      subst hce
      refine ⟨by omega, ?_, ?_⟩
      · intro x hx
        exact hperm.mem_iff.mp (hsub.subset hx)
      · exact hslt.sublist hsub
    refine ⟨hmem, ?_⟩
    have hnodup : (generateTileCombos tiles target).Nodup := by
      have hnd' : (sortTiles tiles).Nodup := (hperm.nodup_iff).mpr hnd
      exact nodup_generateAux hnd'
    haveI : IsAntisymm Nat (· < ·) :=
      ⟨fun a b h1 h2 => absurd h2 (not_lt_of_gt h1)⟩
    refine hnodup.imp_of_mem ?_
    intro a b ha hb hne heqset
    obtain ⟨-, -, hsa⟩ := hmem a ha
    obtain ⟨-, -, hsb⟩ := hmem b hb
    have hp : a.Perm b :=
      (perm_iff_toFinset_eq hsa.nodup hsb.nodup).mpr heqset
    exact hne (List.eq_of_perm_of_sorted hp hsa hsb)
  · decide

/-- Witness for C2 at tiles `{1..9}`, target 9. -/
theorem c2_generateTileCombos_witness :
    ([1, 2, 3, 4, 5, 6, 7, 8, 9] : List Nat).Nodup ∧
    (∀ c ∈ generateTileCombos [1, 2, 3, 4, 5, 6, 7, 8, 9] 9,
        (c.sum : Int) = 9 ∧ (∀ x ∈ c, x ∈ [1, 2, 3, 4, 5, 6, 7, 8, 9]) ∧
        c.Sorted (· < ·)) ∧
    (generateTileCombos [1, 2, 3, 4, 5, 6, 7, 8, 9] 9).Pairwise
      (fun a b => a.toFinset ≠ b.toFinset) :=
  ⟨by decide, (c2_generateTileCombos.1 [1, 2, 3, 4, 5, 6, 7, 8, 9] 9 (by decide)).1,
    (c2_generateTileCombos.1 [1, 2, 3, 4, 5, 6, 7, 8, 9] 9 (by decide)).2⟩

/-- C3.  `canUseOneDie` is: always false under `never`; under `after789` true
iff none of the three highest tile values `N-2`, `N-1`, `N` is still open;
under `totalUnder6` true iff the open tiles sum to strictly less than 6. -/
theorem c3_canUseOneDie (tiles : List Nat) (o : GameOptions) :
    (o.oneDieRule = .never → canUseOneDie tiles o = false) ∧
    (o.oneDieRule = .after789 →
      (canUseOneDie tiles o = true ↔
        o.maxTile - 2 ∉ tiles ∧ o.maxTile - 1 ∉ tiles ∧ o.maxTile ∉ tiles)) ∧
    (o.oneDieRule = .totalUnder6 →
      (canUseOneDie tiles o = true ↔ tiles.sum < 6)) := by
  refine ⟨?_, ?_, ?_⟩
  · intro h; simp [canUseOneDie, h]
  · intro h; simp [canUseOneDie, h]
  · intro h; simp [canUseOneDie, h, sumTiles_eq_sum]

/-- Witness for C3: with `N = 9`, tiles `{1,2,9}` block `after789`
(9 is open), tiles `{1,4}` allow `totalUnder6` (sum 5), and `never` always
refuses. -/
theorem c3_canUseOneDie_witness :
    canUseOneDie [1, 2, 9]
      { maxTile := 9, oneDieRule := .never, scoring := .lowest,
        targetScore := 100, instantWinOnShut := true } = false ∧
    canUseOneDie [1, 2, 9]
      { maxTile := 9, oneDieRule := .after789, scoring := .lowest,
        targetScore := 100, instantWinOnShut := true } = false ∧
    canUseOneDie [1, 4]
      { maxTile := 9, oneDieRule := .totalUnder6, scoring := .lowest,
        targetScore := 100, instantWinOnShut := true } = true := by
  refine ⟨(c3_canUseOneDie [1, 2, 9] _).1 rfl, ?_, ?_⟩
  · have h := ((c3_canUseOneDie [1, 2, 9]
      { maxTile := 9, oneDieRule := .after789, scoring := .lowest,
        targetScore := 100, instantWinOnShut := true }).2.1 rfl)
    revert h
    decide
  · exact ((c3_canUseOneDie [1, 4]
      { maxTile := 9, oneDieRule := .totalUnder6, scoring := .lowest,
        targetScore := 100, instantWinOnShut := true }).2.2 rfl).mpr (by decide)

/-- C9 counterexample: at target 0 the generator emits the empty combo (the
`sum === target` check fires before the loop), so both the "target 0 yields
no combos" and the "empty tile list yields no combos for every target" parts
of the claim fail at target 0. -/
theorem c9_generateTileCombos_cx :
    generateTileCombos [1, 2] 0 = [[]] ∧ generateTileCombos [] 0 = [[]] := by
  constructor <;> decide

/-- C9 as amended: no combos for negative targets; at target 0 exactly one
combo, the empty one, for every tile list; and the empty tile list yields no
combos for every nonzero target. -/
theorem c9_generateTileCombos_edge :
    (∀ (tiles : List Nat) (target : Int), target < 0 →
      generateTileCombos tiles target = []) ∧
    (∀ tiles : List Nat, generateTileCombos tiles 0 = [[]]) ∧
    (∀ target : Int, target ≠ 0 → generateTileCombos [] target = []) := by
  refine ⟨?_, ?_, ?_⟩
  · intro tiles target h
    exact generateAux_eq_nil_of_lt h
  · intro tiles
    show generateAux 0 (sortTiles tiles) 0 [] = [[]]
    rw [generateAux.eq_def]
    simp
  · intro target h
    show generateAux target (sortTiles []) 0 [] = []
    rw [show sortTiles [] = [] from rfl, generateAux]
    rw [if_neg (by omega)]

/-- Witness for C9 (amended) at targets `-1`, `0` and `5`. -/
theorem c9_generateTileCombos_edge_witness :
    ((-1 : Int) < 0 ∧ generateTileCombos [1, 2] (-1) = []) ∧
    generateTileCombos [1, 2] 0 = [[]] ∧
    ((5 : Int) ≠ 0 ∧ generateTileCombos [] 5 = []) :=
  ⟨⟨by decide, c9_generateTileCombos_edge.1 [1, 2] (-1) (by decide)⟩,
    c9_generateTileCombos_edge.2.1 [1, 2],
    ⟨by decide, c9_generateTileCombos_edge.2.2 5 (by decide)⟩⟩

end ShutTheBox

namespace ShutTheBox

/-- C6.  When a turn ends, either the round is over (no hand-off is
prepared), or the round continues and `endTurn` does not activate the next
turn: it stores a fresh turn for the next player index and a fresh full tile
board in the pending slots, marks the table as waiting, and keeps the
finished turn active; the pending turn and tiles only become `turn` and
`tilesOpen` through `acknowledgeNextTurn`. -/
theorem c6_handoff (s : GameState) (t : TurnState) (hturn : s.turn = some t) :
    (((endTurn s).phase = .finished ∧ (endTurn s).pendingTurn = none ∧
        (endTurn s).pendingTiles = none ∧ (endTurn s).waitingForNext = false) ∨
      ((endTurn s).phase = s.phase ∧ (endTurn s).waitingForNext = true ∧
        (endTurn s).turn = some { t with rolled := false, finished := true } ∧
        (endTurn s).pendingTiles = some (createInitialTiles s.options.maxTile) ∧
        (endTurn s).pendingTurn = some (freshTurn
          (if s.players.length ≤ t.playerIndex + 1 then 0 else t.playerIndex + 1)
          (createInitialTiles s.options.maxTile) s.options))) ∧
    (∀ (w : GameState) (pt : TurnState), w.pendingTurn = some pt →
      (acknowledgeNextTurn w).turn = some pt ∧
      (acknowledgeNextTurn w).tilesOpen =
        w.pendingTiles.getD (createInitialTiles w.options.maxTile) ∧
      (acknowledgeNextTurn w).pendingTurn = none ∧
      (acknowledgeNextTurn w).waitingForNext = false) := by
  refine ⟨?_, fun w pt hw => acknowledgeNextTurn_applies hw⟩
  have hlen := updatePlayersScore_length s.options.scoring (sumTiles s.tilesOpen)
    s.players t.playerIndex
  rw [endTurn.eq_def, hturn]
  simp only []
  split
  · split
    · split
      · exact Or.inl ⟨rfl, rfl, rfl, rfl⟩
      · split
        · exact Or.inl ⟨rfl, rfl, rfl, rfl⟩
        · next hlast _ _ =>
          refine Or.inr ⟨rfl, rfl, rfl, rfl, ?_⟩
          rw [if_pos (by rw [← hlen]; exact hlast)]
    · next hlast =>
      refine Or.inr ⟨rfl, rfl, rfl, rfl, ?_⟩
      rw [if_neg (by rw [← hlen]; exact hlast)]
  · split
    · exact Or.inl ⟨rfl, rfl, rfl, rfl⟩
    · refine Or.inr ⟨rfl, rfl, rfl, rfl, ?_⟩
      rw [hlen]

end ShutTheBox

namespace ShutTheBox

/-- Witness for C6 on a concrete single-player state with an active turn. -/
theorem c6_handoff_witness :
    (((endTurn exampleState).phase = .finished ∧
        (endTurn exampleState).pendingTurn = none ∧
        (endTurn exampleState).pendingTiles = none ∧
        (endTurn exampleState).waitingForNext = false) ∨
      ((endTurn exampleState).phase = exampleState.phase ∧
        (endTurn exampleState).waitingForNext = true ∧
        (endTurn exampleState).turn =
          some { exampleTurn with rolled := false, finished := true } ∧
        (endTurn exampleState).pendingTiles =
          some (createInitialTiles exampleState.options.maxTile) ∧
        (endTurn exampleState).pendingTurn = some (freshTurn
          (if exampleState.players.length ≤ exampleTurn.playerIndex + 1 then 0
            else exampleTurn.playerIndex + 1)
          (createInitialTiles exampleState.options.maxTile)
          exampleState.options))) ∧
    (∀ (w : GameState) (pt : TurnState), w.pendingTurn = some pt →
      (acknowledgeNextTurn w).turn = some pt ∧
      (acknowledgeNextTurn w).tilesOpen =
        w.pendingTiles.getD (createInitialTiles w.options.maxTile) ∧
      (acknowledgeNextTurn w).pendingTurn = none ∧
      (acknowledgeNextTurn w).waitingForNext = false) :=
  c6_handoff exampleState exampleTurn rfl

end ShutTheBox

namespace ShutTheBox

/-- Under `'instant'` scoring, a turn that ends with remainder zero (and no
stale zero score on any other player) finishes the round at once with the
current player as the sole winner and prepares no hand-off. -/
theorem endTurn_instant_shut {s : GameState} {t : TurnState} {cp : Player}
    (hturn : s.turn = some t) (hsc : s.options.scoring = .instant)
    (hcp : s.players.get? t.playerIndex = some cp)
    (hrem : sumTiles s.tilesOpen = 0)
    (hothers : ∀ j p, j ≠ t.playerIndex → s.players.get? j = some p →
      p.lastScore ≠ some 0) :
    (endTurn s).phase = .finished ∧ (endTurn s).winnerIds = [cp.id] ∧
    (endTurn s).pendingTurn = none ∧ (endTurn s).waitingForNext = false := by
  have hfilter := filter_updatePlayersScore_zero s.options.scoring s.players
    t.playerIndex cp hcp hothers
  rw [endTurn.eq_def, hturn]
  simp only [hrem]
  rw [if_neg (by simp [hsc])]
  rw [hfilter]
  rw [if_pos (by simp [hsc])]
  exact ⟨rfl, rfl, rfl, rfl⟩

end ShutTheBox

namespace ShutTheBox

/-- C5.  Under `InstantWinOnShut` scoring, a turn ending with remainder zero
finishes the round at once with that player as sole winner and prepares no
next turn — both when `endTurn` runs (its shut-player branch) and when
`confirmMove` empties the board (via `shouldInstantWin` or, failing that, the
`endTurn` it calls). -/
theorem c5_instantWinOnShut :
    (∀ (s : GameState) (t : TurnState) (cp : Player),
      s.turn = some t → s.options.scoring = .instant →
      s.players.get? t.playerIndex = some cp →
      sumTiles s.tilesOpen = 0 →
      (∀ j p, j ≠ t.playerIndex → s.players.get? j = some p →
        p.lastScore ≠ some 0) →
      (endTurn s).phase = .finished ∧ (endTurn s).winnerIds = [cp.id] ∧
      (endTurn s).pendingTurn = none ∧ (endTurn s).waitingForNext = false) ∧
    (∀ (s : GameState) (t : TurnState) (cp : Player),
      s.turn = some t → t.rolled = true → t.finished = false →
      s.options.scoring = .instant →
      s.players.get? t.playerIndex = some cp →
      (t.selectableCombos.any fun c => isSameCombo c (sortTiles t.selectedTiles)) = true →
      s.tilesOpen.filter (fun tile => !((sortTiles t.selectedTiles).contains tile)) = [] →
      (∀ j p, j ≠ t.playerIndex → s.players.get? j = some p →
        p.lastScore ≠ some 0) →
      s.pendingTurn = none → s.waitingForNext = false →
      (confirmMove s).phase = .finished ∧ (confirmMove s).winnerIds = [cp.id] ∧
      (confirmMove s).pendingTurn = none ∧
      (confirmMove s).waitingForNext = false) := by
  constructor
  · intro s t cp hturn hsc hcp hrem hothers
    exact endTurn_instant_shut hturn hsc hcp hrem hothers
  · intro s t cp hturn hrolled hfin hsc hcp hvalid hempty hothers hpend hwait
    rw [confirmMove.eq_def, hturn]
    simp only [hrolled, hfin]
    rw [if_neg (by simp)]
    rw [if_neg (by simp [hvalid])]
    rw [hempty]
    rw [if_pos (show ([] : List Nat).length = 0 from rfl)]
    have hsi : shouldInstantWin [] s.options = s.options.instantWinOnShut := by
      simp [shouldInstantWin]
    rw [hsi]
    by_cases hflag : s.options.instantWinOnShut = true
    · rw [if_pos hflag]
      refine ⟨rfl, ?_, hpend, hwait⟩
      rw [updatePlayersScore_get?_self hcp]
    · rw [if_neg hflag]
      refine @endTurn_instant_shut _ _
        { cp with
          lastScore := some (sumTiles []),
          totalScore :=
            if s.options.scoring = ScoringMode.target then cp.totalScore + sumTiles []
            else sumTiles [] }
        rfl hsc (updatePlayersScore_get?_self hcp) rfl ?_
      intro j p hj hp
      rw [updatePlayersScore_get?_ne hj] at hp
      exact hothers j p hj hp

end ShutTheBox

namespace ShutTheBox

def instOptions : GameOptions :=
  { maxTile := 9, oneDieRule := .after789, scoring := .instant,
    targetScore := 100, instantWinOnShut := true }

def instPlayerA : Player :=
  { id := 10, name := "A", totalScore := 0, lastScore := some 5,
    hintsEnabled := false }

def instPlayerB : Player :=
  { id := 20, name := "B", totalScore := 0, lastScore := none,
    hintsEnabled := false }

def instPlayerC : Player :=
  { id := 30, name := "C", totalScore := 0, lastScore := none,
    hintsEnabled := false }

def instTurn : TurnState :=
  { playerIndex := 1, dice := [], rolled := false, selectableCombos := [],
    selectedTiles := [], history := [], canRollOneDie := false,
    finished := false }

def instState : GameState :=
  { phase := .inProgress, options := instOptions, tilesOpen := [],
    players := [instPlayerA, instPlayerB, instPlayerC], round := 1,
    turn := some instTurn, winnerIds := [], previousWinnerIds := [],
    bestMove := none, unfinishedCounts := [], pendingTurn := none,
    pendingTiles := none, waitingForNext := false }

/-- Witness for C5: player 2 of 3 ends a turn with an empty board under
instant scoring — the round finishes at once with player 2 the sole winner
and no hand-off prepared, so player 3 never plays. -/
theorem c5_instantWinOnShut_witness :
    (endTurn instState).phase = .finished ∧
    (endTurn instState).winnerIds = [instPlayerB.id] ∧
    (endTurn instState).pendingTurn = none ∧
    (endTurn instState).waitingForNext = false :=
  c5_instantWinOnShut.1 instState instTurn instPlayerB rfl rfl rfl rfl
    (by
      intro j p hj hp
      rcases j with - | j
      · simp only [instState, List.get?_cons_zero, Option.some_inj] at hp
        rw [← hp]
        decide
      · rcases j with - | j
        · exact absurd rfl hj
        · rcases j with - | j
          · simp only [instState, List.get?_cons_succ, List.get?_cons_zero,
              Option.some_inj] at hp
            rw [← hp]
            decide
          · simp [instState] at hp)

end ShutTheBox

namespace ShutTheBox

/-- Witness for C10 on a concrete state (two dice: 7, 8, 9 still open) with a
constant random source. -/
theorem c10_rollDice_default_witness :
    ∃ t', (rollDice (fun _ => (2 : Fin 6)) none exampleState).turn = some t' ∧
      t'.dice.length =
        (if canUseOneDie exampleState.tilesOpen exampleState.options = true
          then 1 else 2) ∧
      ∀ d ∈ t'.dice, 1 ≤ d ∧ d ≤ 6 :=
  c10_rollDice_default (fun _ => (2 : Fin 6)) exampleState exampleTurn rfl rfl

end ShutTheBox

namespace ShutTheBox

/-- C1.  In a rolled, unfinished turn, confirming a selection that is
set-equal to one of the legal combos removes exactly those tiles from the
open set and appends the history entry `{dice, closedTiles}`; confirming a
selection (the empty one included) that matches no legal combo changes
nothing.  (The duplicate-freeness hypotheses hold for every reachable state:
selections are toggled tile by tile and combos are generator output.) -/
theorem c1_confirmMove (s : GameState) (t : TurnState)
    (hturn : s.turn = some t) (hrolled : t.rolled = true)
    (hfin : t.finished = false) (hselnd : t.selectedTiles.Nodup)
    (hcombos : ∀ c ∈ t.selectableCombos, c.Nodup) :
    (∀ c ∈ t.selectableCombos, t.selectedTiles.toFinset = c.toFinset →
      (confirmMove s).tilesOpen = s.tilesOpen.filter (fun x => x ∉ c) ∧
      ∃ t', (confirmMove s).turn = some t' ∧
        t'.history = t.history ++
          [{ dice := t.dice, closedTiles := sortTiles t.selectedTiles }]) ∧
    ((∀ c ∈ t.selectableCombos, t.selectedTiles.toFinset ≠ c.toFinset) →
      confirmMove s = s) := by
  constructor
  · intro c hc hset
    have hcnd := hcombos c hc
    have hperm : c.Perm t.selectedTiles :=
      (perm_iff_toFinset_eq hcnd hselnd).mpr hset.symm
    have hsame : isSameCombo c (sortTiles t.selectedTiles) = true := by
      rw [isSameCombo_iff_perm]
      exact hperm.trans (sortTiles_perm t.selectedTiles).symm
    have hvalid : (t.selectableCombos.any fun cc =>
        isSameCombo cc (sortTiles t.selectedTiles)) = true :=
      List.any_eq_true.mpr ⟨c, hc, hsame⟩
    have hxiff : ∀ x, x ∈ sortTiles t.selectedTiles ↔ x ∈ c := fun x =>
      ((sortTiles_perm t.selectedTiles).mem_iff).trans hperm.symm.mem_iff
    have hfiltereq :
        s.tilesOpen.filter (fun tile => !((sortTiles t.selectedTiles).contains tile)) =
          s.tilesOpen.filter (fun x => x ∉ c) := by
      apply List.filter_congr
      intro x _
      by_cases hxc : x ∈ c
      · simp [(hxiff x).mpr hxc, hxc]
      · have hnot : x ∉ sortTiles t.selectedTiles := fun h => hxc ((hxiff x).mp h)
        simp [hnot, hxc]
    rw [confirmMove.eq_def, hturn]
    simp only [hrolled, hfin]
    rw [if_neg (by simp)]
    rw [if_neg (by simp [hvalid])]
    rw [hfiltereq]
    split
    · split
      · exact ⟨rfl, _, rfl, rfl⟩
      · exact ⟨endTurn_tilesOpen _, _, endTurn_turn rfl, rfl⟩
    · exact ⟨rfl, _, rfl, rfl⟩
  · intro hne
    have hvalid : (t.selectableCombos.any fun cc =>
        isSameCombo cc (sortTiles t.selectedTiles)) = false := by
      rw [List.any_eq_false]
      intro c hc h
      have hperm : c.Perm t.selectedTiles :=
        (isSameCombo_iff_perm _ _ |>.mp h).trans (sortTiles_perm t.selectedTiles)
      exact hne c hc (List.toFinset_eq_of_perm _ _ hperm.symm)
    rw [confirmMove.eq_def, hturn]
    simp only [hrolled, hfin]
    rw [if_neg (by simp)]
    rw [if_pos hvalid]

end ShutTheBox

namespace ShutTheBox

def c1Turn : TurnState :=
  { playerIndex := 0, dice := [4, 5], rolled := true,
    selectableCombos :=
      [[1, 2, 6], [1, 3, 5], [1, 8], [2, 3, 4], [2, 7], [3, 6], [4, 5], [9]],
    selectedTiles := [9], history := [], canRollOneDie := false,
    finished := false }

def c1State : GameState :=
  { phase := .inProgress, options := exampleOptions,
    tilesOpen := createInitialTiles 9, players := [examplePlayer], round := 1,
    turn := some c1Turn, winnerIds := [], previousWinnerIds := [],
    bestMove := none, unfinishedCounts := [(1, 0)], pendingTurn := none,
    pendingTiles := none, waitingForNext := false }

/-- Witness for C1: confirming the selection `{9}` for a roll of 9 closes
tile 9 and records the history entry. -/
theorem c1_confirmMove_witness :
    (confirmMove c1State).tilesOpen =
      c1State.tilesOpen.filter (fun x => x ∉ ([9] : List Nat)) ∧
    ∃ t', (confirmMove c1State).turn = some t' ∧
      t'.history = c1Turn.history ++
        [{ dice := c1Turn.dice, closedTiles := sortTiles c1Turn.selectedTiles }] :=
  (c1_confirmMove c1State c1Turn rfl rfl rfl (by decide) (by decide)).1
    [9] (by decide) (by decide)

end ShutTheBox

namespace ShutTheBox

/-- C4.  Under `'lowest'` scoring, when the last player's turn ends the round
finishes, and the winners are exactly the scored players of minimal
`lastScore` — except that a lone scored player with a score above zero wins
nothing. -/
theorem c4_endTurn_lowest (s : GameState) (t : TurnState) (cp : Player)
    (hturn : s.turn = some t) (hsc : s.options.scoring = .lowest)
    (hcp : s.players.get? t.playerIndex = some cp)
    (hlast : s.players.length ≤ t.playerIndex + 1) :
    (endTurn s).phase = .finished ∧
    ((∃ p, (updatePlayersScore .lowest (sumTiles s.tilesOpen) s.players
          t.playerIndex).filter (fun p => p.lastScore.isSome) = [p] ∧
        0 < p.lastScore.getD 0) →
      (endTurn s).winnerIds = []) ∧
    (¬(∃ p, (updatePlayersScore .lowest (sumTiles s.tilesOpen) s.players
          t.playerIndex).filter (fun p => p.lastScore.isSome) = [p] ∧
        0 < p.lastScore.getD 0) →
      ∀ pid, pid ∈ (endTurn s).winnerIds ↔
        ∃ p, p ∈ (updatePlayersScore .lowest (sumTiles s.tilesOpen) s.players
            t.playerIndex).filter (fun p => p.lastScore.isSome) ∧
          p.id = pid ∧
          ∀ q ∈ (updatePlayersScore .lowest (sumTiles s.tilesOpen) s.players
            t.playerIndex).filter (fun p => p.lastScore.isSome),
            p.lastScore.getD 0 ≤ q.lastScore.getD 0) := by
  have hlen := updatePlayersScore_length s.options.scoring (sumTiles s.tilesOpen)
    s.players t.playerIndex
  have hs : ∀ p ∈ (updatePlayersScore s.options.scoring (sumTiles s.tilesOpen)
      s.players t.playerIndex).filter (fun p => p.lastScore.isSome),
      p.lastScore.isSome := by
    intro p hp
    simpa using (List.mem_filter.mp hp).2
  have hcp' := @updatePlayersScore_get?_self s.options.scoring
    (sumTiles s.tilesOpen) s.players t.playerIndex cp hcp
  have hmemu : ({ cp with
      lastScore := some (sumTiles s.tilesOpen),
      totalScore := if s.options.scoring = ScoringMode.target
        then cp.totalScore + sumTiles s.tilesOpen
        else sumTiles s.tilesOpen } : Player) ∈
      updatePlayersScore s.options.scoring (sumTiles s.tilesOpen) s.players
        t.playerIndex :=
    List.get?_mem hcp'
  have hscored_ne : (updatePlayersScore s.options.scoring (sumTiles s.tilesOpen)
      s.players t.playerIndex).filter (fun p => p.lastScore.isSome) ≠ [] := by
    exact List.ne_nil_of_mem (List.mem_filter.mpr ⟨hmemu, by simp⟩)
  have hspec := lowestWinners_spec _ hs
  rw [endTurn.eq_def, hturn]
  simp only []
  rw [if_pos hsc]
  rw [if_pos (by rw [hlen]; exact hlast)]
  rw [hsc] at hs hspec hscored_ne hcp' hmemu ⊢
  split
  · next hcond =>
    obtain ⟨hwne, hnoshut⟩ := hcond
    refine ⟨rfl, ?_, ?_⟩
    · intro hsp
      exfalso
      rw [← singlePlayerNoShut_iff] at hsp
      rw [hsp] at hnoshut
      simp at hnoshut
    · intro _ pid
      exact hspec.1 pid
  · split
    · next hnoshut =>
      refine ⟨rfl, fun _ => rfl, ?_⟩
      intro hnsp
      exfalso
      exact hnsp ((singlePlayerNoShut_iff _).mp hnoshut)
    · next hcond hnoshut =>
      exfalso
      have hwe : lowestWinners ((updatePlayersScore ScoringMode.lowest
          (sumTiles s.tilesOpen) s.players t.playerIndex).filter
            (fun p => p.lastScore.isSome)) = [] := by
        by_contra hne
        apply hcond
        refine ⟨hne, ?_⟩
        cases h : singlePlayerNoShut ((updatePlayersScore ScoringMode.lowest
            (sumTiles s.tilesOpen) s.players t.playerIndex).filter
              (fun p => p.lastScore.isSome))
        · rfl
        · exact absurd h hnoshut
      exact hspec.2 hscored_ne hwe

end ShutTheBox

namespace ShutTheBox

def c4PlayerA : Player :=
  { id := 100, name := "A", totalScore := 3, lastScore := some 3,
    hintsEnabled := false }

def c4PlayerB : Player :=
  { id := 200, name := "B", totalScore := 0, lastScore := none,
    hintsEnabled := false }

def c4Turn : TurnState :=
  { playerIndex := 1, dice := [], rolled := false, selectableCombos := [],
    selectedTiles := [], history := [], canRollOneDie := false,
    finished := false }

def c4State : GameState :=
  { phase := .inProgress, options := exampleOptions, tilesOpen := [],
    players := [c4PlayerA, c4PlayerB], round := 1, turn := some c4Turn,
    winnerIds := [], previousWinnerIds := [], bestMove := none,
    unfinishedCounts := [], pendingTurn := none, pendingTiles := none,
    waitingForNext := false }

/-- Witness for C4: two players under lowest-remainder scoring, A scored 3,
B (the last player) ends with an empty board — the round finishes and the
winner characterisation holds at this state. -/
theorem c4_endTurn_lowest_witness :
    (endTurn c4State).phase = .finished ∧
    ((∃ p, (updatePlayersScore .lowest (sumTiles c4State.tilesOpen)
          c4State.players c4Turn.playerIndex).filter
            (fun p => p.lastScore.isSome) = [p] ∧
        0 < p.lastScore.getD 0) →
      (endTurn c4State).winnerIds = []) ∧
    (¬(∃ p, (updatePlayersScore .lowest (sumTiles c4State.tilesOpen)
          c4State.players c4Turn.playerIndex).filter
            (fun p => p.lastScore.isSome) = [p] ∧
        0 < p.lastScore.getD 0) →
      ∀ pid, pid ∈ (endTurn c4State).winnerIds ↔
        ∃ p, p ∈ (updatePlayersScore .lowest (sumTiles c4State.tilesOpen)
            c4State.players c4Turn.playerIndex).filter
              (fun p => p.lastScore.isSome) ∧
          p.id = pid ∧
          ∀ q ∈ (updatePlayersScore .lowest (sumTiles c4State.tilesOpen)
            c4State.players c4Turn.playerIndex).filter
              (fun p => p.lastScore.isSome),
            p.lastScore.getD 0 ≤ q.lastScore.getD 0) :=
  c4_endTurn_lowest c4State c4Turn c4PlayerB rfl rfl rfl (by decide)

end ShutTheBox
